import Mathlib

/-!
# Verification of `mqtt::string_collection` (paho.mqtt.cpp, src/mqtt/string_collection.h)

The class keeps a collection of owned strings (`std::vector<string> coll_`)
together with a derived array of raw C pointers (`std::vector<const char*> cArr_`)
into the byte storage of those strings, for handing to the Paho C library.

Shallow embedding:
* Byte storage lives in an explicit `Memory`: a list of byte blocks; an address
  is an index into that list.  Allocating a `std::string`'s buffer appends a
  fresh block, so distinct allocations have distinct addresses and existing
  blocks never move (this models the heap stability of `std::string` buffers
  held inside the vector: a vector reallocation moves the string objects, not
  the heap buffers their `c_str()` pointers refer to).
* An owned `std::string` is modelled by the address of its NUL-terminated
  buffer; `c_str()` is that address.
* `string_collection` is the pair of the owned-string list `coll_` and the
  pointer list `cArr_`.
* Only `string_collection.h` is among the sources.  The bodies of
  `update_c_arr`, `push_back`, `clear`, the value constructors and the copy
  constructor / copy assignment live in `string_collection.cpp`, which is not
  part of the sources; those operations are modelled from the specification
  (their doc comments say so).  Everything written inline in the header
  (`size`, `empty`, `operator[]`, `c_arr`, the defaulted default/move
  operations) is translated from the header itself.
-/

/-- A byte of string storage (a `char` value). -/
abbrev Byte := Nat

/-- The heap holding the byte buffers of the owned strings.  Block `a` is the
buffer at address `a`; allocation appends a block, so addresses of live blocks
are stable. -/
structure Memory where
  blocks : List (List Byte)
deriving DecidableEq

/-- Dereference an address: the byte block stored there (junk `[]` if the
address was never allocated). -/
def Memory.deref (m : Memory) (a : Nat) : List Byte :=
  (m.blocks[a]?).getD []

/-- Allocate a fresh block holding `bs`; returns the new memory and the
address of the block. -/
def Memory.alloc (m : Memory) (bs : List Byte) : Memory × Nat :=
  (⟨m.blocks ++ [bs]⟩, m.blocks.length)

/-- The buffer contents of a C string with value `s`: the bytes followed by
the NUL terminator. -/
def cstrBytes (s : List Byte) : List Byte := s ++ [0]

/-- An owned `std::string`: the address of its NUL-terminated byte buffer. -/
structure OwnedString where
  addr : Nat
deriving DecidableEq

/-- `std::string::c_str()`: the raw pointer to the string's buffer. -/
def OwnedString.c_str (os : OwnedString) : Nat := os.addr

/-- The text value of an owned string: its buffer minus the NUL terminator. -/
def OwnedString.value (m : Memory) (os : OwnedString) : List Byte :=
  (m.deref os.addr).dropLast

/-- Well-formedness of an owned string in a memory: its address is allocated
and its buffer is its value followed by the NUL terminator. -/
def OwnedString.wfAt (m : Memory) (os : OwnedString) : Prop :=
  os.addr < m.blocks.length ∧ m.deref os.addr = cstrBytes (os.value m)

instance (m : Memory) (os : OwnedString) : Decidable (os.wfAt m) := by
  unfold OwnedString.wfAt; infer_instance

/-- Allocate a fresh owned string with value `s` (what `std::string`
construction from a text value does). -/
def allocString (m : Memory) (s : List Byte) : Memory × OwnedString :=
  ((m.alloc (cstrBytes s)).1, ⟨(m.alloc (cstrBytes s)).2⟩)

/-- Allocate owned strings for a whole list of values, left to right. -/
def allocStrings (m : Memory) (ss : List (List Byte)) : Memory × List OwnedString :=
  match ss with
  | [] => (m, [])
  | s :: rest =>
    ((allocStrings (allocString m s).1 rest).1,
      (allocString m s).2 :: (allocStrings (allocString m s).1 rest).2)

/-- `mqtt::string_collection`: the owned strings `coll_` and the derived raw
pointer array `cArr_` (fields as in the header). -/
structure string_collection where
  coll_ : List OwnedString
  cArr_ : List Nat
deriving DecidableEq

/-- Modelled from the spec: the body of `string_collection::update_c_arr` is
in `string_collection.cpp`, which is not among the sources.  The spec: "the
derived array is recomputed as a direct, deterministic projection of the owned
sequence (one raw pointer per element, in the same order)". -/
def string_collection.update_c_arr (sc : string_collection) : string_collection :=
  { sc with cArr_ := sc.coll_.map OwnedString.c_str }

/-- `string_collection::size` (header, inline): `return coll_.size();`. -/
def string_collection.size (sc : string_collection) : Nat := sc.coll_.length

/-- `string_collection::empty` (header, inline): declared with return type
`size_t`, body `return coll_.empty();` — the `bool` converts to `1`/`0`. -/
def string_collection.empty (sc : string_collection) : Nat :=
  if sc.coll_.isEmpty then 1 else 0

/-- `string_collection::c_arr` (header, inline): `return cArr_.data();`, the
pointer array view. -/
def string_collection.c_arr (sc : string_collection) : List Nat := sc.cArr_

/-- Possible outcomes of an indexed read. `boundsError` is the distinguishable
bounds-violation error the spec describes; `undefined` is the outcome of an
out-of-range unchecked `std::vector::operator[]`, which the C++ standard
leaves undefined. -/
inductive ReadResult where
  | ok (bytes : List Byte)
  | boundsError
  | undefined
deriving DecidableEq

/-- `string_collection::operator[]` (header, inline): `return coll_[i];`.
`std::vector::operator[]` performs no bounds check: in range it yields the
stored string (returned by value), out of range the behaviour is undefined. -/
def string_collection.getIdx (sc : string_collection) (m : Memory) (i : Nat) : ReadResult :=
  match sc.coll_[i]? with
  | some os => ReadResult.ok (os.value m)
  | none => ReadResult.undefined

/-- Modelled from the spec: the bodies of `string_collection::push_back` are
in `string_collection.cpp`, which is not among the sources.  The spec:
"append(value) inserts at the end, preserving existing order; MUST rebuild
(or incrementally extend) the derived array so it stays fully consistent
before the call returns". -/
def string_collection.push_back (sc : string_collection) (m : Memory) (s : List Byte) :
    Memory × string_collection :=
  ((allocString m s).1,
    string_collection.update_c_arr { sc with coll_ := sc.coll_ ++ [(allocString m s).2] })

/-- Modelled from the spec: the body of `string_collection::clear` is in
`string_collection.cpp`, which is not among the sources.  The spec:
"clear() empties both the owned sequence and derived array". -/
def string_collection.clear (sc : string_collection) : string_collection :=
  string_collection.update_c_arr { sc with coll_ := [] }

/-- `string_collection()` (header, `=default`): both member vectors are
default-constructed empty. -/
def string_collection.mkEmpty : string_collection :=
  { coll_ := [], cArr_ := [] }

/-- Modelled from the spec: the bodies of the value constructors
(`string_collection(const string&)`, `(string&&)`, `(const collection_type&)`,
`(collection_type&&)`, `(std::initializer_list<...>)`) are in
`string_collection.cpp`, which is not among the sources.  The spec:
"Construct(sequence of values) → collection whose order matches input order;
derived array built immediately". -/
def string_collection.mkFromList (m : Memory) (ss : List (List Byte)) :
    Memory × string_collection :=
  ((allocStrings m ss).1,
    string_collection.update_c_arr { coll_ := (allocStrings m ss).2, cArr_ := [] })

/-- Modelled from the spec: the single-string constructor, a collection of
size 1 (body in `string_collection.cpp`, not among the sources). -/
def string_collection.mkSingle (m : Memory) (s : List Byte) : Memory × string_collection :=
  string_collection.mkFromList m [s]

/-- The sequence of text values held by the collection. -/
def string_collection.values (m : Memory) (sc : string_collection) : List (List Byte) :=
  sc.coll_.map (OwnedString.value m)

/-- Modelled from the spec: the body of the copy constructor
`string_collection(const string_collection&)` is in `string_collection.cpp`,
which is not among the sources.  The spec: "Copy → deep-copies owned text
values; derived array rebuilt from the new copies' own byte storage (must NOT
alias the source's storage)". -/
def string_collection.copy (m : Memory) (src : string_collection) :
    Memory × string_collection :=
  string_collection.mkFromList m (src.values m)

/-- Modelled from the spec: the body of the copy assignment
`string_collection::operator=(const string_collection&)` is in
`string_collection.cpp`, which is not among the sources; per the spec it
deep-copies the source just like copy construction, replacing `dst`. -/
def string_collection.assign (m : Memory) (_dst src : string_collection) :
    Memory × string_collection :=
  string_collection.copy m src

/-- `string_collection(string_collection&&)` and move assignment (header,
`=default`): member-wise `std::vector` moves.  The destination takes over both
vectors (the heap buffers of the strings do not move, so the stolen pointers
stay valid); the moved-from vectors are left empty. -/
def string_collection.moveFrom (src : string_collection) :
    string_collection × string_collection :=
  ({ coll_ := src.coll_, cArr_ := src.cArr_ }, { coll_ := [], cArr_ := [] })

/-- The structural alignment invariant: the derived array is exactly the
projection of the owned sequence through `c_str`. -/
def string_collection.aligned (sc : string_collection) : Prop :=
  sc.cArr_ = sc.coll_.map OwnedString.c_str

instance (sc : string_collection) : Decidable sc.aligned := by
  unfold string_collection.aligned; infer_instance

/-- Well-formedness of a collection in a memory: every owned string's buffer
is allocated and NUL-terminated. -/
def string_collection.wf (m : Memory) (sc : string_collection) : Prop :=
  ∀ os ∈ sc.coll_, os.wfAt m

instance (m : Memory) (sc : string_collection) : Decidable (sc.wf m) := by
  unfold string_collection.wf; infer_instance

/-- The index-wise reading of the alignment invariant, as the spec states it:
same length, and the i-th pointer is the address of the i-th owned string's
byte storage. -/
def string_collection.derivedAligned (sc : string_collection) : Prop :=
  sc.cArr_.length = sc.coll_.length ∧
    ∀ i : Nat, sc.cArr_[i]? = (sc.coll_[i]?).map OwnedString.c_str

/-- A finite sequence of `push_back` calls, left to right. -/
def string_collection.pushAll (m : Memory) (sc : string_collection)
    (ss : List (List Byte)) : Memory × string_collection :=
  match ss with
  | [] => (m, sc)
  | s :: rest =>
    string_collection.pushAll (sc.push_back m s).1 (sc.push_back m s).2 rest

/-- `string_collection::size` with the program state threaded explicitly: the
body `return coll_.size();` reads `coll_` and writes nothing, so the memory
and the collection come back unchanged. -/
def string_collection.sizeObs (sc : string_collection) (m : Memory) :
    Nat × Memory × string_collection :=
  (sc.size, m, sc)

/-- `string_collection::empty` with the program state threaded explicitly:
the body `return coll_.empty();` writes nothing. -/
def string_collection.emptyObs (sc : string_collection) (m : Memory) :
    Nat × Memory × string_collection :=
  (sc.empty, m, sc)

/-- `string_collection::operator[]` with the program state threaded
explicitly: the body `return coll_[i];` reads `coll_` and returns the string
by value (a copy); it writes no member, so the memory and the collection come
back unchanged. -/
def string_collection.getIdxObs (sc : string_collection) (m : Memory) (i : Nat) :
    ReadResult × Memory × string_collection :=
  (sc.getIdx m i, m, sc)

/-- `string_collection::c_arr` with the program state threaded explicitly:
the body `return cArr_.data();` writes nothing. -/
def string_collection.c_arrObs (sc : string_collection) (m : Memory) :
    List Nat × Memory × string_collection :=
  (sc.c_arr, m, sc)

/-! ## Basic lemmas about the memory model -/

lemma Memory.blocks_alloc (m : Memory) (bs : List Byte) :
    (m.alloc bs).1.blocks = m.blocks ++ [bs] := rfl

lemma Memory.deref_alloc_of_lt (m : Memory) (bs : List Byte) {a : Nat}
    (h : a < m.blocks.length) : (m.alloc bs).1.deref a = m.deref a := by
  simp [Memory.alloc, Memory.deref, List.getElem?_append_left h]

lemma Memory.deref_alloc_self (m : Memory) (bs : List Byte) :
    (m.alloc bs).1.deref m.blocks.length = bs := by
  simp [Memory.alloc, Memory.deref, List.getElem?_concat_length]

lemma OwnedString.value_alloc (m : Memory) (bs : List Byte) {os : OwnedString}
    (h : os.addr < m.blocks.length) : os.value (m.alloc bs).1 = os.value m := by
  simp [OwnedString.value, Memory.deref_alloc_of_lt m bs h]

lemma OwnedString.wfAt_alloc (m : Memory) (bs : List Byte) {os : OwnedString}
    (h : os.wfAt m) : os.wfAt (m.alloc bs).1 := by
  refine ⟨?_, ?_⟩
  · have h1 := h.1
    simp only [Memory.blocks_alloc, List.length_append, List.length_singleton]
    omega
  · rw [Memory.deref_alloc_of_lt m bs h.1, OwnedString.value_alloc m bs h.1]
    exact h.2

/-! ## Lemmas about string allocation -/

lemma allocString_blocks (m : Memory) (s : List Byte) :
    (allocString m s).1.blocks = m.blocks ++ [cstrBytes s] := rfl

lemma allocString_addr (m : Memory) (s : List Byte) :
    (allocString m s).2.addr = m.blocks.length := rfl

lemma allocString_deref (m : Memory) (s : List Byte) :
    (allocString m s).1.deref (allocString m s).2.addr = cstrBytes s :=
  Memory.deref_alloc_self m (cstrBytes s)

lemma allocString_value (m : Memory) (s : List Byte) :
    (allocString m s).2.value (allocString m s).1 = s := by
  rw [OwnedString.value, allocString_deref]
  exact List.dropLast_concat

lemma allocString_wfAt (m : Memory) (s : List Byte) :
    (allocString m s).2.wfAt (allocString m s).1 := by
  refine ⟨?_, ?_⟩
  · simp [allocString_blocks, allocString_addr]
  · rw [allocString_deref, allocString_value]

lemma allocStrings_blocks (ss : List (List Byte)) (m : Memory) :
    (allocStrings m ss).1.blocks = m.blocks ++ ss.map cstrBytes := by
  induction ss generalizing m with
  | nil => simp [allocStrings]
  | cons s rest ih => simp [allocStrings, ih, allocString, Memory.alloc]

lemma allocStrings_length (ss : List (List Byte)) (m : Memory) :
    (allocStrings m ss).2.length = ss.length := by
  induction ss generalizing m with
  | nil => rfl
  | cons s rest ih => simp [allocStrings, ih]

lemma allocStrings_getElem? (ss : List (List Byte)) (m : Memory) (i : Nat) :
    (allocStrings m ss).2[i]?
      = if i < ss.length then some ⟨m.blocks.length + i⟩ else none := by
  induction ss generalizing m i with
  | nil => simp [allocStrings]
  | cons s rest ih =>
    match i with
    | 0 => simp [allocStrings, allocString, Memory.alloc]
    | Nat.succ j =>
      have hsnd : (allocStrings m (s :: rest)).2
          = (allocString m s).2 :: (allocStrings (allocString m s).1 rest).2 := rfl
      rw [hsnd, List.getElem?_cons_succ, ih]
      rcases Nat.lt_or_ge j rest.length with h | h
      · rw [if_pos h, if_pos (by simpa using Nat.succ_lt_succ h)]
        refine congrArg _ ?_
        refine congrArg _ ?_
        simp [allocString_blocks]
        omega
      · rw [if_neg (by omega), if_neg (by simp; omega)]

lemma allocStrings_deref_old (ss : List (List Byte)) (m : Memory) {a : Nat}
    (h : a < m.blocks.length) : (allocStrings m ss).1.deref a = m.deref a := by
  simp [Memory.deref, allocStrings_blocks, List.getElem?_append_left h]

lemma allocStrings_deref_new (ss : List (List Byte)) (m : Memory) {i : Nat}
    (h : i < ss.length) :
    (allocStrings m ss).1.deref (m.blocks.length + i) = cstrBytes ss[i] := by
  rw [Memory.deref, allocStrings_blocks,
    List.getElem?_append_right (Nat.le_add_right _ _)]
  simp [List.getElem?_map, List.getElem?_eq_getElem (by simpa using h)]

/-! ## Lemmas about the collection operations -/

lemma update_c_arr_coll (sc : string_collection) :
    (sc.update_c_arr).coll_ = sc.coll_ := rfl

lemma update_c_arr_aligned (sc : string_collection) :
    (sc.update_c_arr).aligned := rfl

lemma aligned_derivedAligned {sc : string_collection} (h : sc.aligned) :
    sc.derivedAligned := by
  constructor
  · rw [h, List.length_map]
  · intro i
    rw [h, List.getElem?_map]

lemma mkFromList_fst (m : Memory) (ss : List (List Byte)) :
    (string_collection.mkFromList m ss).1 = (allocStrings m ss).1 := rfl

lemma mkFromList_coll (m : Memory) (ss : List (List Byte)) :
    ((string_collection.mkFromList m ss).2).coll_ = (allocStrings m ss).2 := rfl

lemma mkFromList_aligned (m : Memory) (ss : List (List Byte)) :
    ((string_collection.mkFromList m ss).2).aligned := rfl

lemma mkFromList_size (m : Memory) (ss : List (List Byte)) :
    ((string_collection.mkFromList m ss).2).size = ss.length := by
  rw [string_collection.size, mkFromList_coll, allocStrings_length]

lemma mkFromList_values (m : Memory) (ss : List (List Byte)) :
    ((string_collection.mkFromList m ss).2).values (string_collection.mkFromList m ss).1
      = ss := by
  apply List.ext_getElem?
  intro i
  rw [string_collection.values, List.getElem?_map, mkFromList_coll, mkFromList_fst,
    allocStrings_getElem?]
  by_cases h : i < ss.length
  · rw [if_pos h, List.getElem?_eq_getElem h]
    have hd := allocStrings_deref_new ss m h
    simp only [Option.map_some', OwnedString.value, hd, cstrBytes, List.dropLast_concat]
  · rw [if_neg h, List.getElem?_eq_none (by omega)]
    simp

lemma mkFromList_wf (m : Memory) (ss : List (List Byte)) :
    ((string_collection.mkFromList m ss).2).wf (string_collection.mkFromList m ss).1 := by
  intro os hos
  rw [mkFromList_coll] at hos
  rcases List.mem_iff_getElem?.mp hos with ⟨i, hi⟩
  rw [allocStrings_getElem?] at hi
  by_cases h : i < ss.length
  · rw [if_pos h, Option.some_inj] at hi
    subst hi
    constructor
    · rw [mkFromList_fst, allocStrings_blocks, List.length_append, List.length_map]
      simpa using h
    · rw [mkFromList_fst]
      have hd := allocStrings_deref_new ss m h
      simp only [OwnedString.value, hd, cstrBytes, List.dropLast_concat]
  · rw [if_neg h] at hi
    exact absurd hi (by simp)

lemma mkFromList_addr_ge (m : Memory) (ss : List (List Byte)) :
    ∀ a ∈ ((string_collection.mkFromList m ss).2).cArr_, m.blocks.length ≤ a := by
  intro a ha
  have hcarr : ((string_collection.mkFromList m ss).2).cArr_
      = ((allocStrings m ss).2).map OwnedString.c_str := rfl
  rw [hcarr] at ha
  rcases List.mem_map.mp ha with ⟨os, hos, hval⟩
  rcases List.mem_iff_getElem?.mp hos with ⟨i, hi⟩
  rw [allocStrings_getElem?] at hi
  by_cases h : i < ss.length
  · rw [if_pos h, Option.some_inj] at hi
    subst hi
    subst hval
    exact Nat.le_add_right _ _
  · rw [if_neg h] at hi
    exact absurd hi (by simp)

lemma push_back_fst (sc : string_collection) (m : Memory) (s : List Byte) :
    (sc.push_back m s).1 = (allocString m s).1 := rfl

lemma push_back_coll (sc : string_collection) (m : Memory) (s : List Byte) :
    ((sc.push_back m s).2).coll_ = sc.coll_ ++ [(allocString m s).2] := rfl

lemma push_back_aligned (sc : string_collection) (m : Memory) (s : List Byte) :
    ((sc.push_back m s).2).aligned := rfl

lemma push_back_size (sc : string_collection) (m : Memory) (s : List Byte) :
    ((sc.push_back m s).2).size = sc.size + 1 := by
  rw [string_collection.size, push_back_coll, List.length_append, List.length_singleton]
  rfl

lemma wfAt_allocString {m : Memory} {os : OwnedString} (s : List Byte)
    (h : os.wfAt m) : os.wfAt (allocString m s).1 :=
  OwnedString.wfAt_alloc m (cstrBytes s) h

lemma value_allocString {m : Memory} {os : OwnedString} (s : List Byte)
    (h : os.addr < m.blocks.length) : os.value (allocString m s).1 = os.value m :=
  OwnedString.value_alloc m (cstrBytes s) h

lemma values_length (m : Memory) (sc : string_collection) :
    (sc.values m).length = sc.size := by
  rw [string_collection.values, List.length_map, string_collection.size]

lemma push_back_values {m : Memory} {sc : string_collection} (s : List Byte)
    (h : sc.wf m) :
    ((sc.push_back m s).2).values (sc.push_back m s).1 = sc.values m ++ [s] := by
  rw [string_collection.values, push_back_coll, push_back_fst, List.map_append]
  refine congrArg₂ _ ?_ ?_
  · refine List.map_congr_left fun os hos => ?_
    exact value_allocString s ((h os hos).1)
  · rw [List.map_singleton, allocString_value]

lemma push_back_wf {m : Memory} {sc : string_collection} (s : List Byte)
    (h : sc.wf m) :
    ((sc.push_back m s).2).wf (sc.push_back m s).1 := by
  intro os hos
  rw [push_back_coll] at hos
  rcases List.mem_append.mp hos with h1 | h1
  · exact wfAt_allocString s (h os h1)
  · rw [List.mem_singleton] at h1
    subst h1
    exact allocString_wfAt m s

lemma pushAll_spec (ss : List (List Byte)) :
    ∀ (m : Memory) (sc : string_collection), sc.wf m →
      ((string_collection.pushAll m sc ss).2).wf (string_collection.pushAll m sc ss).1 ∧
      ((string_collection.pushAll m sc ss).2).values (string_collection.pushAll m sc ss).1
        = sc.values m ++ ss := by
  induction ss with
  | nil =>
    intro m sc h
    exact ⟨h, by simp [string_collection.pushAll]⟩
  | cons s rest ih =>
    intro m sc h
    have hrec := ih (sc.push_back m s).1 (sc.push_back m s).2 (push_back_wf s h)
    rw [string_collection.pushAll]
    refine ⟨hrec.1, ?_⟩
    rw [hrec.2, push_back_values s h, List.append_assoc, List.singleton_append]

lemma getIdx_eq_values (sc : string_collection) (m : Memory) (i : Nat) :
    sc.getIdx m i
      = match (sc.values m)[i]? with
        | some v => ReadResult.ok v
        | none => ReadResult.undefined := by
  rw [string_collection.getIdx, string_collection.values, List.getElem?_map]
  cases sc.coll_[i]? <;> rfl

lemma mkEmpty_wf (m : Memory) : string_collection.mkEmpty.wf m := by
  intro os hos
  exact absurd hos (by simp [string_collection.mkEmpty])

lemma mkEmpty_values (m : Memory) : string_collection.mkEmpty.values m = [] := rfl

/-! ## Claim theorems -/

/-- C1: immediately after every completed mutation — empty construction,
construction from a sequence of values, `push_back`, `clear`, copy
construction and copy assignment — the derived pointer array has the same
length as the owned string sequence, and for every index `i` the `i`-th
pointer of the derived array is the address of the byte storage of the `i`-th
owned string. -/
theorem C1_derived_array_aligned_after_mutation :
    string_collection.mkEmpty.derivedAligned ∧
    (∀ (m : Memory) (ss : List (List Byte)),
      ((string_collection.mkFromList m ss).2).derivedAligned) ∧
    (∀ (sc : string_collection) (m : Memory) (s : List Byte),
      ((sc.push_back m s).2).derivedAligned) ∧
    (∀ sc : string_collection, (sc.clear).derivedAligned) ∧
    (∀ (m : Memory) (src : string_collection),
      ((string_collection.copy m src).2).derivedAligned) ∧
    (∀ (m : Memory) (dst src : string_collection),
      ((string_collection.assign m dst src).2).derivedAligned) := by
  refine ⟨?_, ?_, ?_, ?_, ?_, ?_⟩
  · exact aligned_derivedAligned rfl
  · intro m ss
    exact aligned_derivedAligned (mkFromList_aligned m ss)
  · intro sc m s
    exact aligned_derivedAligned (push_back_aligned sc m s)
  · intro sc
    exact aligned_derivedAligned rfl
  · intro m src
    exact aligned_derivedAligned (mkFromList_aligned m (src.values m))
  · intro m dst src
    exact aligned_derivedAligned (mkFromList_aligned m (src.values m))

/-- C2 counterexample: on the empty collection, an indexed read at position
`0 ≥ size()` does not fail with a distinguishable bounds-violation error as
the claim states: `operator[]` forwards to the unchecked
`std::vector::operator[]`, whose out-of-range behaviour is undefined. -/
theorem C2_counterexample_no_bounds_error :
    string_collection.mkEmpty.getIdx ⟨[]⟩ 0 = ReadResult.undefined ∧
    ReadResult.undefined ≠ ReadResult.boundsError := by
  decide

/-- C2 (amended): an indexed read at any position not less than `size()` is
an unchecked access with no defined result (undefined behaviour), not a
distinguishable bounds error; an indexed read at position `size()-1` on a
non-empty collection succeeds, returning the stored value. -/
theorem C2_indexed_read_bounds :
    (∀ (sc : string_collection) (m : Memory) (i : Nat), sc.size ≤ i →
      sc.getIdx m i = ReadResult.undefined) ∧
    (∀ (sc : string_collection) (m : Memory), sc.size ≠ 0 →
      sc.getIdx m (sc.size - 1)
        = ReadResult.ok ((sc.values m).getD (sc.size - 1) [])) := by
  constructor
  · intro sc m i h
    rw [string_collection.getIdx, List.getElem?_eq_none h]
  · intro sc m h
    have hlt : sc.size - 1 < sc.coll_.length := by
      rw [string_collection.size] at h ⊢
      omega
    rw [string_collection.getIdx, List.getElem?_eq_getElem hlt,
      List.getD_eq_getElem?_getD, string_collection.values, List.getElem?_map,
      List.getElem?_eq_getElem hlt]
    rfl

/-- C2 witness: the amended theorem applied at the empty collection for the
out-of-range part and at a concrete one-element collection for the in-range
part. -/
theorem C2_indexed_read_bounds_witness :
    string_collection.mkEmpty.getIdx ⟨[]⟩ 5 = ReadResult.undefined ∧
    (string_collection.mk [⟨0⟩] [0]).getIdx ⟨[[97, 0]]⟩
        ((string_collection.mk [⟨0⟩] [0]).size - 1)
      = ReadResult.ok (((string_collection.mk [⟨0⟩] [0]).values ⟨[[97, 0]]⟩).getD
          ((string_collection.mk [⟨0⟩] [0]).size - 1) []) :=
  ⟨C2_indexed_read_bounds.1 string_collection.mkEmpty ⟨[]⟩ 5 (by decide),
   C2_indexed_read_bounds.2 (string_collection.mk [⟨0⟩] [0]) ⟨[[97, 0]]⟩ (by decide)⟩

/-- C3: starting from the empty collection, after appending the values of
`ss` in order, `size()` equals N = `ss.length`, and the indexed read at each
`i` returns exactly the i-th appended value when `i < N` (appending inserts
at the end and never reorders existing elements). -/
theorem C3_push_back_sequence (m : Memory) (ss : List (List Byte)) :
    (string_collection.pushAll m string_collection.mkEmpty ss).2.size = ss.length ∧
    ∀ i : Nat,
      (string_collection.pushAll m string_collection.mkEmpty ss).2.getIdx
          (string_collection.pushAll m string_collection.mkEmpty ss).1 i
        = match ss[i]? with
          | some v => ReadResult.ok v
          | none => ReadResult.undefined := by
  have h := pushAll_spec ss m string_collection.mkEmpty (mkEmpty_wf m)
  have hv : (string_collection.pushAll m string_collection.mkEmpty ss).2.values
      (string_collection.pushAll m string_collection.mkEmpty ss).1 = ss := by
    rw [h.2, mkEmpty_values, List.nil_append]
  constructor
  · rw [← values_length (string_collection.pushAll m string_collection.mkEmpty ss).1, hv]
  · intro i
    rw [getIdx_eq_values, hv]

/-- C4: on a collection satisfying the alignment invariant whose strings are
live in memory, `c_arr()` is a view of exactly `size()` pointers (no trailing
null sentinel), and for every `i < size()` the `i`-th pointer dereferences to
the NUL-terminated byte sequence of the `i`-th owned string. -/
theorem C4_c_arr_view (m : Memory) (sc : string_collection)
    (ha : sc.aligned) (hw : sc.wf m) :
    sc.c_arr.length = sc.size ∧
    ∀ i : Nat, i < sc.size →
      m.deref (sc.c_arr.getD i 0) = cstrBytes ((sc.values m).getD i []) := by
  constructor
  · rw [string_collection.c_arr, ha, List.length_map, string_collection.size]
  · intro i hi
    rw [string_collection.size] at hi
    have hos : sc.coll_[i]? = some sc.coll_[i] := List.getElem?_eq_getElem hi
    have hmem : sc.coll_[i] ∈ sc.coll_ := List.getElem_mem hi
    have hptr : sc.c_arr.getD i 0 = (sc.coll_[i]).addr := by
      rw [string_collection.c_arr, ha, List.getD_eq_getElem?_getD, List.getElem?_map, hos]
      rfl
    have hval : (sc.values m).getD i [] = (sc.coll_[i]).value m := by
      rw [string_collection.values, List.getD_eq_getElem?_getD, List.getElem?_map, hos]
      rfl
    rw [hptr, hval]
    exact (hw _ hmem).2

/-- C4 witness: the theorem applied to the concrete collection constructed
from the two values `[97]` and `[98]` in the empty memory. -/
theorem C4_c_arr_view_witness :
    ((string_collection.mkFromList ⟨[]⟩ [[97], [98]]).2).c_arr.length
        = ((string_collection.mkFromList ⟨[]⟩ [[97], [98]]).2).size ∧
    (string_collection.mkFromList ⟨[]⟩ [[97], [98]]).1.deref
        (((string_collection.mkFromList ⟨[]⟩ [[97], [98]]).2).c_arr.getD 1 0)
      = cstrBytes ((((string_collection.mkFromList ⟨[]⟩ [[97], [98]]).2).values
          (string_collection.mkFromList ⟨[]⟩ [[97], [98]]).1).getD 1 []) := by
  have h := C4_c_arr_view (string_collection.mkFromList ⟨[]⟩ [[97], [98]]).1
    ((string_collection.mkFromList ⟨[]⟩ [[97], [98]]).2) (by decide) (by decide)
  exact ⟨h.1, h.2 1 (by decide)⟩

/-- C5: copy construction deep-copies: the copy's string contents equal the
source's in order, while its derived pointer array shares no pointer value
with the source's derived pointer array; copy assignment behaves exactly like
copy construction. -/
theorem C5_copy_no_aliasing (m : Memory) (src : string_collection)
    (ha : src.aligned) (hw : src.wf m) :
    ((string_collection.copy m src).2).values (string_collection.copy m src).1
        = src.values m ∧
    (∀ p ∈ ((string_collection.copy m src).2).c_arr, p ∉ src.c_arr) ∧
    (∀ dst : string_collection,
      string_collection.assign m dst src = string_collection.copy m src) := by
  refine ⟨mkFromList_values m (src.values m), ?_, fun dst => rfl⟩
  intro p hp hmem
  have h1 : m.blocks.length ≤ p := mkFromList_addr_ge m (src.values m) p hp
  have h2 : p < m.blocks.length := by
    rw [string_collection.c_arr, ha] at hmem
    rcases List.mem_map.mp hmem with ⟨os, hos, rfl⟩
    exact (hw os hos).1
  omega

/-- C5 witness: the theorem applied to a concrete one-element source whose
string lives at address 0; the copy's single pointer is a fresh address, so
the source's pointer 0 is not among the copy's pointers. -/
theorem C5_copy_no_aliasing_witness :
    ((string_collection.copy ⟨[[97, 0]]⟩ (string_collection.mk [⟨0⟩] [0])).2).values
        (string_collection.copy ⟨[[97, 0]]⟩ (string_collection.mk [⟨0⟩] [0])).1
      = (string_collection.mk [⟨0⟩] [0]).values ⟨[[97, 0]]⟩ ∧
    0 ∉ ((string_collection.copy ⟨[[97, 0]]⟩ (string_collection.mk [⟨0⟩] [0])).2).c_arr := by
  have h := C5_copy_no_aliasing ⟨[[97, 0]]⟩ (string_collection.mk [⟨0⟩] [0])
    (by decide) (by decide)
  refine ⟨h.1, fun hmem => h.2.1 0 hmem (by decide)⟩

/-- C6: `clear()` empties both representations: afterwards `size()` is 0 and
the derived pointer array is empty. -/
theorem C6_clear_empties_both (sc : string_collection) :
    (sc.clear).size = 0 ∧ (sc.clear).c_arr = [] :=
  ⟨rfl, rfl⟩

/-- C7: the defaulted move operations transfer both the owned sequence and
the derived pointer array to the destination unchanged — so a destination
moved from an aligned source satisfies the alignment invariant and holds the
source's former contents — and the moved-from object is left empty, a valid
collection that itself satisfies the invariant. -/
theorem C7_move_transfers_ownership (src : string_collection) (ha : src.aligned) :
    (src.moveFrom).1 = src ∧
    (src.moveFrom).1.aligned ∧
    (src.moveFrom).2.size = 0 ∧
    (src.moveFrom).2.aligned :=
  ⟨rfl, ha, rfl, rfl⟩

/-- C7 witness: the theorem applied to a concrete aligned one-element
collection. -/
theorem C7_move_transfers_ownership_witness :
    ((string_collection.mk [⟨0⟩] [0]).moveFrom).1 = string_collection.mk [⟨0⟩] [0] ∧
    ((string_collection.mk [⟨0⟩] [0]).moveFrom).2.size = 0 := by
  have h := C7_move_transfers_ownership (string_collection.mk [⟨0⟩] [0]) (by decide)
  exact ⟨h.1, h.2.2.1⟩

/-- C8: the empty constructor yields an empty collection with an empty
derived array; single-string construction yields size 1; construction from a
sequence or literal list preserves input order with the derived array built
immediately; concretely, from the literal list `["a/b", "c/d"]` (bytes
`[97,47,98]`, `[99,47,100]`) the size is 2 and the derived pointers
dereference to `"a/b"` and `"c/d"` in order, and after appending `"e/f"`
(bytes `[101,47,102]`) the size is 3, the third pointer dereferences to
`"e/f"` and the first two still dereference correctly. -/
theorem C8_construction_forms :
    string_collection.mkEmpty.size = 0 ∧
    string_collection.mkEmpty.c_arr = [] ∧
    (∀ (m : Memory) (s : List Byte), ((string_collection.mkSingle m s).2).size = 1) ∧
    (∀ (m : Memory) (ss : List (List Byte)),
      ((string_collection.mkFromList m ss).2).values
          (string_collection.mkFromList m ss).1 = ss ∧
      ((string_collection.mkFromList m ss).2).aligned) ∧
    (((string_collection.mkFromList ⟨[]⟩ [[97,47,98], [99,47,100]]).2).size = 2 ∧
      (string_collection.mkFromList ⟨[]⟩ [[97,47,98], [99,47,100]]).1.deref
          (((string_collection.mkFromList ⟨[]⟩ [[97,47,98], [99,47,100]]).2).c_arr.getD 0 9)
        = cstrBytes [97,47,98] ∧
      (string_collection.mkFromList ⟨[]⟩ [[97,47,98], [99,47,100]]).1.deref
          (((string_collection.mkFromList ⟨[]⟩ [[97,47,98], [99,47,100]]).2).c_arr.getD 1 9)
        = cstrBytes [99,47,100]) ∧
    ((((string_collection.mkFromList ⟨[]⟩ [[97,47,98], [99,47,100]]).2).push_back
          (string_collection.mkFromList ⟨[]⟩ [[97,47,98], [99,47,100]]).1
          [101,47,102]).2.size = 3 ∧
      (((string_collection.mkFromList ⟨[]⟩ [[97,47,98], [99,47,100]]).2).push_back
          (string_collection.mkFromList ⟨[]⟩ [[97,47,98], [99,47,100]]).1
          [101,47,102]).1.deref
        ((((string_collection.mkFromList ⟨[]⟩ [[97,47,98], [99,47,100]]).2).push_back
          (string_collection.mkFromList ⟨[]⟩ [[97,47,98], [99,47,100]]).1
          [101,47,102]).2.c_arr.getD 2 9)
        = cstrBytes [101,47,102] ∧
      (((string_collection.mkFromList ⟨[]⟩ [[97,47,98], [99,47,100]]).2).push_back
          (string_collection.mkFromList ⟨[]⟩ [[97,47,98], [99,47,100]]).1
          [101,47,102]).1.deref
        ((((string_collection.mkFromList ⟨[]⟩ [[97,47,98], [99,47,100]]).2).push_back
          (string_collection.mkFromList ⟨[]⟩ [[97,47,98], [99,47,100]]).1
          [101,47,102]).2.c_arr.getD 0 9)
        = cstrBytes [97,47,98] ∧
      (((string_collection.mkFromList ⟨[]⟩ [[97,47,98], [99,47,100]]).2).push_back
          (string_collection.mkFromList ⟨[]⟩ [[97,47,98], [99,47,100]]).1
          [101,47,102]).1.deref
        ((((string_collection.mkFromList ⟨[]⟩ [[97,47,98], [99,47,100]]).2).push_back
          (string_collection.mkFromList ⟨[]⟩ [[97,47,98], [99,47,100]]).1
          [101,47,102]).2.c_arr.getD 1 9)
        = cstrBytes [99,47,100]) := by
  refine ⟨rfl, rfl, ?_, ?_, by decide, by decide⟩
  · intro m s
    exact mkFromList_size m [s]
  · intro m ss
    exact ⟨mkFromList_values m ss, mkFromList_aligned m ss⟩

/-- C9: `empty()` returns a truthy (nonzero) value exactly when `size()` is
zero. -/
theorem C9_empty_iff_size_zero (sc : string_collection) :
    sc.empty ≠ 0 ↔ sc.size = 0 := by
  rcases sc with ⟨coll, arr⟩
  cases coll <;> simp [string_collection.empty, string_collection.size]

/-- C10: the read-only observations `size()`, `empty()`, `operator[]` and
`c_arr()` leave the program state — the memory and both members of the
collection — unchanged; in particular the non-const `operator[]` returns the
stored bytes by value and alters no stored element. -/
theorem C10_reads_leave_state_unchanged (sc : string_collection) (m : Memory) (i : Nat) :
    (sc.sizeObs m).2.1 = m ∧ (sc.sizeObs m).2.2 = sc ∧
    (sc.emptyObs m).2.1 = m ∧ (sc.emptyObs m).2.2 = sc ∧
    (sc.getIdxObs m i).2.1 = m ∧ (sc.getIdxObs m i).2.2 = sc ∧
    (sc.c_arrObs m).2.1 = m ∧ (sc.c_arrObs m).2.2 = sc ∧
    (sc.getIdxObs m i).1 = sc.getIdx m i ∧
    ((sc.getIdxObs m i).2.2).values ((sc.getIdxObs m i).2.1) = sc.values m :=
  ⟨rfl, rfl, rfl, rfl, rfl, rfl, rfl, rfl, rfl, rfl⟩
